import Mathlib

/-
Verification of the luavsg pkg-config shim
(src/luavsg_cmake_shims/luavsg_pkg_config.py).

The shim is shallowly embedded: strings are Lean strings (lists of
characters), Python dicts become association lists with explicit
insertion policies, the regex substitution of the variable expander is
implemented as a character-level scanner, and the filesystem plus the
Python exception mechanism are made explicit (an abstract FS record and
an Except-valued main function).  Exit status and stdout are modelled as
a pair of a natural number and a string.
-/

set_option maxRecDepth 4000

namespace LuavsgPkgConfig

/-- Python exceptions that the shim can raise or observe while reading
files: FileNotFoundError (raised explicitly by the collector and
possibly by a file read), PermissionError and other OS errors from a
read, and the IndexError that indexing an empty list would raise. -/
inductive Exc where
  | fileNotFoundError (arg : String)
  | permissionError
  | indexError
  deriving DecidableEq

/-- A discovered metadata file, reduced to the two attributes that the
shim uses: the stem (file base name without the final extension, which
becomes the package name) and the textual path of the containing
directory. -/
structure PcPath where
  stem : String
  parent : String
  deriving DecidableEq

/-- Python dict lookup d.get(k): value at the key, or none. -/
def dictGet? {α : Type} (d : List (String × α)) (k : String) : Option α :=
  (d.find? fun p => p.1 == k).map Prod.snd

/-- Python dict lookup d.get(k, dflt) with a default. -/
def dictGetD {α : Type} (d : List (String × α)) (k : String) (dflt : α) : α :=
  (dictGet? d k).getD dflt

/-- Python dict assignment d[k] = v: replace in place on an existing
key, otherwise append (insertion order preserved, last write wins). -/
def dictSet {α : Type} (d : List (String × α)) (k : String) (v : α) :
    List (String × α) :=
  if (dictGet? d k).isSome then
    d.map fun p => if p.1 == k then (k, v) else p
  else
    d ++ [(k, v)]

/-- Python d.setdefault(k, v): insert only when the key is absent
(first write wins). -/
def dictSetdefault {α : Type} (d : List (String × α)) (k : String) (v : α) :
    List (String × α) :=
  if (dictGet? d k).isSome then d else d ++ [(k, v)]

/-- The characters stripped by the Python str.strip() default. -/
def isPySpace (c : Char) : Bool :=
  c = ' ' || c = '\t' || c = '\n' || c = '\x0d' || c = '\x0b' || c = '\x0c'

/-- Python str.strip() on a character list: drop whitespace from both
ends. -/
def pstripList (l : List Char) : List Char :=
  ((l.dropWhile isPySpace).reverse.dropWhile isPySpace).reverse

/-- Python str.strip() on strings. -/
def pstrip (s : String) : String :=
  ⟨pstripList s.data⟩

/-- Python s.split(sep, 1) for a one-character separator that occurs in
s: the part before the first occurrence and the part after it. -/
def pySplit1 (sep : Char) : List Char → List Char × List Char
  | [] => ([], [])
  | c :: rest =>
    if c = sep then ([], rest)
    else
      let p := pySplit1 sep rest
      (c :: p.1, p.2)

/-- Python str.split() with no arguments: split on runs of whitespace,
discarding empty pieces.  The accumulator holds the current word in
reverse. -/
def splitWsAux : List Char → List Char → List (List Char)
  | [], acc => if acc.isEmpty then [] else [acc.reverse]
  | c :: rest, acc =>
    if isPySpace c then
      if acc.isEmpty then splitWsAux rest []
      else acc.reverse :: splitWsAux rest []
    else splitWsAux rest (c :: acc)

/-- Python str.split() with no arguments, on strings. -/
def pySplitWs (s : String) : List String :=
  (splitWsAux s.data []).map fun l => ⟨l⟩

/-- Python " ".join(tokens). -/
def pyJoinSpace : List String → String
  | [] => ""
  | [x] => x
  | x :: y :: rest => x ++ " " ++ pyJoinSpace (y :: rest)

/-- The shim version string reported for a --version query. -/
def VERSION : String := "0.0.0-luavsg"

/-- A parsed metadata file: the package name (Name field, defaulting to
the file stem), the path of the file, the declared variables and the
declared fields, all raw and unexpanded. -/
structure PcFile where
  name : String
  path : PcPath
  vars : List (String × String)
  fields : List (String × String)

/-- Scan for the closing brace of a variable reference: on success,
return the characters before the first closing brace and the characters
after it.  This is how the regex class of non-brace characters behaves:
a match extends to the first closing brace. -/
def breakAtBrace : List Char → Option (List Char × List Char)
  | [] => none
  | c :: rest =>
    if c = '}' then some ([], rest)
    else (breakAtBrace rest).map fun p => (c :: p.1, p.2)

/-- Attempt to match the variable pattern at the head of the list: a
dollar sign, an opening brace, at least one non-brace character, and a
closing brace.  On success, return the captured nonempty key and the
remainder after the closing brace. -/
def tryMatch : List Char → Option (List Char × List Char)
  | '$' :: '{' :: rest =>
    match breakAtBrace rest with
    | some (key, rest1) => if key.isEmpty then none else some (key, rest1)
    | none => none
  | _ => none

/-- One left-to-right regex substitution pass over a character list,
replacing each variable reference by its mapped value (empty when
unmapped), exactly as re.sub with the variable pattern does: at each
position, a match is replaced and scanning resumes after it (the
replacement text is not rescanned within the same pass), and a character
that opens no match is copied through.  The fuel argument only serves
structural termination; it is always instantiated with the length of
the list, which bounds the number of scanning steps. -/
def substFuel (vars : List (String × String)) : Nat → List Char → List Char
  | _, [] => []
  | 0, l => l
  | fuel + 1, c :: rest =>
    match tryMatch (c :: rest) with
    | some (key, rest1) =>
      (dictGetD vars ⟨key⟩ "").data ++ substFuel vars fuel rest1
    | none => c :: substFuel vars fuel rest

/-- One substitution pass of the variable pattern over a string:
the body of the loop in the expander, cur = _VAR_RE.sub(repl, cur). -/
def varSub (vars : List (String × String)) (s : String) : String :=
  ⟨substFuel vars s.data.length s.data⟩

/-- The loop of the expander: up to the given fuel many iterations; each
iteration first compares the previous value with the current one and
stops at a fixed point, otherwise applies one substitution pass. -/
def expandLoop (vars : List (String × String)) :
    Nat → Option String → String → String
  | 0, _, cur => cur
  | fuel + 1, prev, cur =>
    if prev = some cur then cur
    else expandLoop vars fuel (some cur) (varSub vars cur)

/-- The expander of the shim: at most ten substitution passes, stopping
early at a fixed point, starting with no previous value. -/
def expand (s : String) (vars : List (String × String)) : String :=
  expandLoop vars 10 none s

/-- Processing of one raw line by the parser: strip it; skip blank lines
and comment lines; classify as a field line when it contains a colon and
the stripped segment before the first colon does not end in an equals
sign; otherwise as a variable assignment when it contains an equals
sign; otherwise skip it.  Keys and values are stripped before being
stored. -/
def parseStep (acc : List (String × String) × List (String × String))
    (raw : String) : List (String × String) × List (String × String) :=
  let line := pstripList raw.data
  if line.isEmpty || line.head? = some '#' then acc
  else if line.contains ':' &&
      !((pstripList (pySplit1 ':' line).1).getLast? = some '=') then
    let kv := pySplit1 ':' line
    (acc.1, dictSet acc.2 ⟨pstripList kv.1⟩ ⟨pstripList kv.2⟩)
  else if line.contains '=' then
    let kv := pySplit1 '=' line
    (dictSet acc.1 ⟨pstripList kv.1⟩ ⟨pstripList kv.2⟩, acc.2)
  else acc

/-- Parse the lines of a metadata file into variables and fields. -/
def parseLines (lines : List String) :
    List (String × String) × List (String × String) :=
  lines.foldl parseStep ([], [])

/-- The abstract filesystem and environment an invocation runs against:
the ordered existence-filtered search roots that the candidate-roots
helper produces, the files a recursive metadata-file walk of a root
yields in traversal order together with an exception that may have cut
the walk short, and the outcome of reading a file as a list of lines. -/
structure FS where
  candidateRoots : List String
  walk : String → List PcPath × Option Exc
  read : PcPath → Except Exc (List String)

/-- The index builder: iterate the roots in order, iterate the files
each walk yields, and insert each file under its stem only when the
stem is not yet present.  An exception during a walk stops that walk
and is swallowed, keeping the files yielded so far. -/
def findPcFiles (fs : FS) (roots : List String) : List (String × PcPath) :=
  roots.foldl
    (fun out root =>
      (fs.walk root).1.foldl (fun o pc => dictSetdefault o pc.stem pc) out)
    []

/-- The index an invocation works with: the index builder applied to the
candidate roots. -/
def buildIndex (fs : FS) : List (String × PcPath) :=
  findPcFiles fs fs.candidateRoots

/-- Parse one metadata file: read it (propagating any read exception),
fold the parser over its lines, and default the package name to the file
stem. -/
def parsePc (fs : FS) (path : PcPath) : Except Exc PcFile :=
  (fs.read path).map fun lines =>
    let vf := parseLines lines
    { name := dictGetD vf.2 "Name" path.stem
      path := path
      vars := vf.1
      fields := vf.2 }

/-- The loop of the collector: for each requested package in order, look
it up in the index (raising FileNotFoundError when absent), parse its
file (propagating read exceptions), seed the variable mapping with the
containing directory under the reserved name when absent, expand the
Cflags and Libs fields, split on whitespace and append the tokens to the
two accumulators. -/
def collectGo (fs : FS) (index : List (String × PcPath)) :
    List String → List String → List String →
    Except Exc (List String × List String)
  | [], cf, lb => .ok (cf, lb)
  | pkg :: rest, cf, lb =>
    match dictGet? index pkg with
    | none => .error (.fileNotFoundError pkg)
    | some pcPath =>
      match parsePc fs pcPath with
      | .error e => .error e
      | .ok pc =>
        let vars1 := dictSetdefault pc.vars "pcfiledir" pcPath.parent
        let c := dictGetD pc.fields "Cflags" ""
        let l := dictGetD pc.fields "Libs" ""
        collectGo fs index rest
          (cf ++ pySplitWs (expand c vars1))
          (lb ++ pySplitWs (expand l vars1))

/-- The collector: build the index from the candidate roots and run the
loop with empty accumulators.  The Libs.private field is never read. -/
def collect (fs : FS) (pkgs : List String) :
    Except Exc (List String × List String) :=
  collectGo fs (buildIndex fs) pkgs [] []

/-- A positional argument: nonempty and not starting with a dash. -/
def plainName (a : String) : Bool :=
  !a.data.isEmpty && !(a.data.head? = some '-')

/-- The loop of the existence query: return 1 at the first requested
name absent from the index, else 0. -/
def existsLoop (index : List (String × PcPath)) : List String → Nat
  | [] => 0
  | p :: rest =>
    if (dictGet? index p).isSome then existsLoop index rest else 1

/-- The dispatcher: the version check first; then the action flags and
the positional package names are extracted; an action flag with no
package names fails with status 1; then existence, version and flag
queries are handled in that order, and an unrecognized invocation fails
with status 1.  The result is the exit status paired with everything
written to stdout, or an uncaught exception. -/
def main (fs : FS) (argv : List String) : Except Exc (Nat × String) :=
  if argv.contains "--version" then .ok (0, VERSION)
  else
    let wantExists := argv.contains "--exists"
    let wantMod := argv.contains "--modversion"
    let wantCflags := argv.contains "--cflags"
    let wantLibs := argv.contains "--libs"
    let pkgs := argv.filter plainName
    if (wantExists || wantMod || wantCflags || wantLibs) && pkgs.isEmpty then
      .ok (1, "")
    else
      let index := buildIndex fs
      if wantExists then .ok (existsLoop index pkgs, "")
      else if wantMod then
        match pkgs with
        | [] => .error .indexError
        | p :: _ =>
          match dictGet? index p with
          | none => .ok (1, "")
          | some pcPath =>
            match parsePc fs pcPath with
            | .error e => .error e
            | .ok pc => .ok (0, dictGetD pc.fields "Version" "0")
      else if wantCflags || wantLibs then
        match collect fs pkgs with
        | .error (.fileNotFoundError _) => .ok (1, "")
        | .error e => .error e
        | .ok (cf, lb) =>
          if wantCflags then .ok (0, pyJoinSpace cf)
          else .ok (0, pyJoinSpace lb)
      else .ok (1, "")

/-- The observable behavior of one process invocation: a normal return
of the dispatcher gives its exit status and stdout; an uncaught
exception makes the interpreter print a traceback to stderr and exit
with status 1, with stdout untouched. -/
def runMain (fs : FS) (argv : List String) : Nat × String :=
  match main fs argv with
  | .ok r => r
  | .error _ => (1, "")

/-- The zlib metadata file of the worked scenario, discovered under the
single root of fsZlib. -/
def zlibPath : PcPath := ⟨"zlib", "/repo/lib"⟩

/-- The lines of the zlib metadata file of the worked scenario. -/
def zlibLines : List String :=
  ["prefix=/usr", "libdir=$\x7bprefix\x7d/lib",
   "Cflags: -I$\x7bprefix\x7d/include", "Libs: -L$\x7blibdir\x7d -lz"]

/-- A filesystem with a single root holding the zlib file of the worked
scenario. -/
def fsZlib : FS where
  candidateRoots := ["/repo/lib"]
  walk := fun r => if r = "/repo/lib" then ([zlibPath], none) else ([], none)
  read := fun p =>
    if p = zlibPath then .ok zlibLines
    else .error (.fileNotFoundError p.stem)

/-- A filesystem on which every walk yields nothing. -/
def fsEmpty : FS where
  candidateRoots := ["/repo/lib"]
  walk := fun _ => ([], none)
  read := fun p => .error (.fileNotFoundError p.stem)

/-- Two roots each holding a metadata file with the stem zlib: the file
of the first-listed root must shadow the file of the second. -/
def fsTwoRoots : FS where
  candidateRoots := ["/r1", "/r2"]
  walk := fun r =>
    if r = "/r1" then ([⟨"zlib", "/r1"⟩], none)
    else if r = "/r2" then ([⟨"zlib", "/r2"⟩], none)
    else ([], none)
  read := fun _ => .error .permissionError

theorem dictGet?_nil {α : Type} (k : String) :
    dictGet? ([] : List (String × α)) k = none := rfl

theorem dictGet?_append {α : Type} (d₁ d₂ : List (String × α)) (k : String) :
    dictGet? (d₁ ++ d₂) k = (dictGet? d₁ k).or (dictGet? d₂ k) := by
  unfold dictGet?
  rw [List.find?_append]
  cases List.find? (fun p => p.1 == k) d₁ <;> simp

theorem dictGet?_single {α : Type} (k k1 : String) (v : α) :
    dictGet? [(k, v)] k1 = if k1 = k then some v else none := by
  unfold dictGet?
  by_cases h : k = k1
  · simp [List.find?, h]
  · have hb : (k == k1) = false := by
      simpa using h
    simp [List.find?, hb, eq_comm (a := k1) (b := k), h]

theorem dictGet?_setdefault {α : Type} (d : List (String × α))
    (k k1 : String) (v : α) :
    dictGet? (dictSetdefault d k v) k1 =
      (dictGet? d k1).or (if k1 = k then some v else none) := by
  unfold dictSetdefault
  by_cases h : (dictGet? d k).isSome
  · rw [if_pos h]
    by_cases hk : k1 = k
    · subst hk
      rcases Option.isSome_iff_exists.mp h with ⟨x, hx⟩
      simp [hx]
    · simp [hk]
  · rw [if_neg h, dictGet?_append, dictGet?_single]

/-- Folding setdefault insertions over a list of discovered files,
starting from any accumulator: a lookup sees the accumulator first and
otherwise the first file of the list with the looked-up stem. -/
theorem foldl_setdefault_lookup (l : List PcPath)
    (init : List (String × PcPath)) (k : String) :
    dictGet? (l.foldl (fun o pc => dictSetdefault o pc.stem pc) init) k =
      (dictGet? init k).or (l.find? fun pc => pc.stem == k) := by
  induction l generalizing init with
  | nil => simp
  | cons pc rest ih =>
    rw [List.foldl_cons, ih, dictGet?_setdefault, Option.or_assoc,
      List.find?_cons]
    by_cases h : pc.stem = k
    · simp [h]
    · have hb : (pc.stem == k) = false := by
        simpa using h
      simp [hb, eq_comm (a := k) (b := pc.stem), h]

/-- The walk of the index builder over a list of roots, starting from
any accumulator: a lookup sees the accumulator first and otherwise the
first file, in root order then traversal order, with the looked-up
stem. -/
theorem findPcFiles_foldl_lookup (fs : FS) (roots : List String)
    (init : List (String × PcPath)) (k : String) :
    dictGet?
      (roots.foldl
        (fun out root =>
          (fs.walk root).1.foldl (fun o pc => dictSetdefault o pc.stem pc) out)
        init) k =
      (dictGet? init k).or
        ((roots.flatMap fun r => (fs.walk r).1).find? fun pc => pc.stem == k) := by
  induction roots generalizing init with
  | nil => simp
  | cons r rest ih =>
    rw [List.foldl_cons, ih, foldl_setdefault_lookup, Option.or_assoc,
      List.flatMap_cons, List.find?_append]

/-- C2: for every ordered list of search roots, the package index maps
each package name to the file from the earliest root containing a
metadata file with that stem; a name, once inserted, is never
overwritten by a later-discovered file.  Formally, a lookup in the built
index returns exactly the first file with the looked-up stem in the
concatenation, in root order, of the per-root traversals; in particular,
when the same stem exists under two roots, the file from the
earlier-listed root is returned, whichever order the roots are listed
in. -/
theorem C2_index_root_precedence :
    (∀ (fs : FS) (roots : List String) (name : String),
      dictGet? (findPcFiles fs roots) name =
        (roots.flatMap fun r => (fs.walk r).1).find? fun pc =>
          pc.stem == name) ∧
    dictGet? (findPcFiles fsTwoRoots ["/r1", "/r2"]) "zlib" =
      some ⟨"zlib", "/r1"⟩ ∧
    dictGet? (findPcFiles fsTwoRoots ["/r2", "/r1"]) "zlib" =
      some ⟨"zlib", "/r2"⟩ := by
  refine ⟨fun fs roots name => ?_, rfl, rfl⟩
  unfold findPcFiles
  rw [findPcFiles_foldl_lookup, dictGet?_nil, Option.none_or]

/-- The loop of the expander, entered after the first pass: it performs
some number of further passes bounded by the fuel, every pass before the
last one changed the string, and the result is either a fixed point of
the substitution pass or the fuel was exhausted. -/
theorem expandLoop_spec (vars : List (String × String)) :
    ∀ (fuel : Nat) (s : String), ∃ n, n ≤ fuel ∧
      expandLoop vars fuel (some s) (varSub vars s) = (varSub vars)^[n + 1] s ∧
      (∀ m, m < n → (varSub vars)^[m] s ≠ (varSub vars)^[m + 1] s) ∧
      ((varSub vars)^[n + 1] s = (varSub vars)^[n + 2] s ∨ n = fuel) := by
  intro fuel
  induction fuel with
  | zero =>
    intro s
    exact ⟨0, Nat.le_refl 0, rfl, fun m hm => absurd hm (Nat.not_lt_zero m),
      Or.inr rfl⟩
  | succ f ih =>
    intro s
    by_cases h : s = varSub vars s
    · refine ⟨0, Nat.zero_le _, ?_, fun m hm => absurd hm (Nat.not_lt_zero m),
        Or.inl ?_⟩
      · simp [expandLoop, ← h]
      · simp [Function.iterate_succ_apply, ← h]
    · rcases ih (varSub vars s) with ⟨n, hle, heq, hchg, hend⟩
      refine ⟨n + 1, Nat.succ_le_succ hle, ?_, ?_, ?_⟩
      · have : expandLoop vars (f + 1) (some s) (varSub vars s) =
            expandLoop vars f (some (varSub vars s))
              (varSub vars (varSub vars s)) := by
          have hcond : ¬(some s = some (varSub vars s)) := by
            simpa using h
          simp [expandLoop, hcond]
        rw [this, heq, ← Function.iterate_succ_apply]
      · intro m hm
        match m with
        | 0 => simpa using h
        | k + 1 =>
          have hk : k < n := Nat.lt_of_succ_lt_succ hm
          have := hchg k hk
          simpa [Function.iterate_succ_apply] using this
      · rcases hend with hfix | hf
        · exact Or.inl (by
            simpa [Function.iterate_succ_apply] using hfix)
        · exact Or.inr (by rw [hf])

/-- C3: the expander performs at most ten substitution passes, every
pass before an early stop changed the string, an early stop happens
exactly at a fixed point of the substitution pass, and when the bound is
exhausted the partially expanded string is returned as-is; in
particular, expansion is a total function that never fails, and on the
self-referential mapping a=${a} it returns the input reference
unchanged. -/
theorem C3_expansion_bounded_total :
    (∀ (vars : List (String × String)) (s : String), ∃ n, n ≤ 10 ∧
      expand s vars = (varSub vars)^[n] s ∧
      (∀ m, m + 1 < n → (varSub vars)^[m] s ≠ (varSub vars)^[m + 1] s) ∧
      ((varSub vars)^[n] s = (varSub vars)^[n + 1] s ∨ n = 10)) ∧
    expand "$\x7ba\x7d" [("a", "$\x7ba\x7d")] = "$\x7ba\x7d" := by
  refine ⟨fun vars s => ?_, rfl⟩
  have hstep : expand s vars = expandLoop vars 9 (some s) (varSub vars s) := by
    simp [expand, expandLoop]
  rcases expandLoop_spec vars 9 s with ⟨n, hle, heq, hchg, hend⟩
  refine ⟨n + 1, Nat.succ_le_succ (by omega), ?_, ?_, ?_⟩
  · rw [hstep, heq]
  · intro m hm
    exact hchg m (by omega)
  · rcases hend with hfix | hf
    · exact Or.inl hfix
    · exact Or.inr (by omega)

/-- Whether the variable pattern matches anywhere in a character list:
at some position a dollar-brace reference with a nonempty key and a
closing brace begins. -/
def containsMarker (l : List Char) : Bool :=
  (List.range l.length).any fun i => (tryMatch (l.drop i)).isSome

theorem containsMarker_head {c : Char} {rest : List Char}
    (h : containsMarker (c :: rest) = false) :
    (tryMatch (c :: rest)).isSome = false := by
  have h0 := List.any_eq_false.mp h 0
    (List.mem_range.mpr (Nat.succ_pos rest.length))
  simpa using h0

theorem containsMarker_tail {c : Char} {rest : List Char}
    (h : containsMarker (c :: rest) = false) :
    containsMarker rest = false := by
  rw [containsMarker]
  rw [List.any_eq_false]
  intro i hi
  have hmem : i + 1 ∈ List.range (c :: rest).length :=
    List.mem_range.mpr (Nat.succ_lt_succ (List.mem_range.mp hi))
  have := List.any_eq_false.mp h (i + 1) hmem
  simpa [List.drop_succ_cons] using this

/-- A substitution pass leaves a character list with no variable marker
unchanged, whatever the fuel. -/
theorem substFuel_no_marker (vars : List (String × String)) :
    ∀ (fuel : Nat) (l : List Char), containsMarker l = false →
      substFuel vars fuel l = l := by
  intro fuel
  induction fuel with
  | zero =>
    intro l _
    cases l <;> rfl
  | succ f ih =>
    intro l hl
    cases l with
    | nil => rfl
    | cons c rest =>
      have hm : (tryMatch (c :: rest)).isSome = false := containsMarker_head hl
      rcases htm : tryMatch (c :: rest) with _ | ⟨key, rest1⟩
      · simp [substFuel, htm, ih rest (containsMarker_tail hl)]
      · rw [htm] at hm
        simp at hm

/-- C9: expansion returns any string containing no variable marker
unchanged, for every variable mapping. -/
theorem C9_expand_no_marker_unchanged (s : String)
    (vars : List (String × String)) (h : containsMarker s.data = false) :
    expand s vars = s := by
  obtain ⟨d⟩ := s
  have h1 : varSub vars ⟨d⟩ = ⟨d⟩ := by
    unfold varSub
    rw [substFuel_no_marker vars _ _ h]
  simp [expand, expandLoop, h1]

/-- Witness for C9 at a concrete already-resolved flag string. -/
theorem C9_expand_no_marker_unchanged_witness :
    containsMarker "-L/usr/lib -lz".data = false ∧
      expand "-L/usr/lib -lz" [("libdir", "/usr/lib")] = "-L/usr/lib -lz" :=
  ⟨by decide,
    C9_expand_no_marker_unchanged "-L/usr/lib -lz" [("libdir", "/usr/lib")]
      (by decide)⟩

theorem plainName_no_dash {p : String} (hp : plainName p = true) :
    ¬p.data.head? = some '-' := by
  intro h
  simp [plainName, h] at hp

/-- A flag string, which starts with a dash, is never among well-formed
positional package names. -/
theorem contains_flag_false {pkgs : List String} {flag : String}
    (hf : flag.data.head? = some '-')
    (h : ∀ p ∈ pkgs, plainName p = true) : pkgs.contains flag = false := by
  induction pkgs with
  | nil => rfl
  | cons p rest ih =>
    have hp : plainName p = true := h p (List.mem_cons.mpr (Or.inl rfl))
    have hne : (flag == p) = false := by
      by_cases he : flag = p
      · subst he
        exact absurd hf (plainName_no_dash hp)
      · simpa using he
    rw [List.contains_cons, hne, Bool.false_or]
    exact ih fun q hq => h q (List.mem_cons.mpr (Or.inr hq))

theorem cons_contains_other {a b : String} {pkgs : List String}
    (hne : (b == a) = false) (hb : b.data.head? = some '-')
    (h : ∀ p ∈ pkgs, plainName p = true) :
    (a :: pkgs).contains b = false := by
  rw [List.contains_cons, hne, Bool.false_or]
  exact contains_flag_false hb h

theorem cons_contains_self (a : String) (pkgs : List String) :
    (a :: pkgs).contains a = true := by
  simp [List.contains_cons]

theorem filter_plain_cons {flag : String} {pkgs : List String}
    (hf : plainName flag = false)
    (h : ∀ p ∈ pkgs, plainName p = true) :
    (flag :: pkgs).filter plainName = pkgs := by
  rw [List.filter_cons, if_neg (by simp [hf])]
  exact List.filter_eq_self.mpr h

/-- The dispatcher on an existence query with well-formed names runs the
existence loop over the index and prints nothing. -/
theorem main_exists_eq (fs : FS) (pkgs : List String)
    (h : ∀ p ∈ pkgs, plainName p = true) (hne : pkgs ≠ []) :
    main fs ("--exists" :: pkgs) =
      .ok (existsLoop (buildIndex fs) pkgs, "") := by
  have hver : ("--exists" :: pkgs).contains "--version" = false :=
    cons_contains_other (by decide) (by decide) h
  have hex : ("--exists" :: pkgs).contains "--exists" = true :=
    cons_contains_self _ _
  have hfil : ("--exists" :: pkgs).filter plainName = pkgs :=
    filter_plain_cons (by decide) h
  have hemp : pkgs.isEmpty = false := List.isEmpty_eq_false.mpr hne
  simp only [main, hver, hex, hfil, hemp, Bool.false_or, Bool.true_or,
    Bool.or_true, Bool.true_and, Bool.and_false, Bool.false_eq_true,
    if_false, if_true]

/-- The dispatcher on a version query with well-formed names looks up
only the first name, parses its file and prints the raw Version field,
defaulting to 0. -/
theorem main_mod_eq (fs : FS) (p : String) (rest : List String)
    (hp : plainName p = true) (h : ∀ q ∈ rest, plainName q = true) :
    main fs ("--modversion" :: p :: rest) =
      (match dictGet? (buildIndex fs) p with
       | none => .ok (1, "")
       | some pcPath =>
         match parsePc fs pcPath with
         | .error e => .error e
         | .ok pc => .ok (0, dictGetD pc.fields "Version" "0")) := by
  have hall : ∀ q ∈ p :: rest, plainName q = true := by
    intro q hq
    rcases List.mem_cons.mp hq with rfl | hq
    · exact hp
    · exact h q hq
  have hver : ("--modversion" :: p :: rest).contains "--version" = false :=
    cons_contains_other (by decide) (by decide) hall
  have hex : ("--modversion" :: p :: rest).contains "--exists" = false :=
    cons_contains_other (by decide) (by decide) hall
  have hmod : ("--modversion" :: p :: rest).contains "--modversion" = true :=
    cons_contains_self _ _
  have hfil : ("--modversion" :: p :: rest).filter plainName = p :: rest :=
    filter_plain_cons (by decide) hall
  simp only [main, hver, hex, hmod, hfil, List.isEmpty_cons, Bool.false_or,
    Bool.true_or, Bool.or_true, Bool.true_and, Bool.and_false,
    Bool.false_eq_true, if_false, if_true]

/-- The dispatcher on a compiler-flags query with well-formed names runs
the collector and prints the space-joined cflags tokens, turning a
missing-package error into exit status 1 and letting any other
exception escape. -/
theorem main_cflags_eq (fs : FS) (pkgs : List String)
    (h : ∀ p ∈ pkgs, plainName p = true) (hne : pkgs ≠ []) :
    main fs ("--cflags" :: pkgs) =
      (match collect fs pkgs with
       | .error (.fileNotFoundError _) => .ok (1, "")
       | .error e => .error e
       | .ok r => .ok (0, pyJoinSpace r.1)) := by
  have hver : ("--cflags" :: pkgs).contains "--version" = false :=
    cons_contains_other (by decide) (by decide) h
  have hex : ("--cflags" :: pkgs).contains "--exists" = false :=
    cons_contains_other (by decide) (by decide) h
  have hmod : ("--cflags" :: pkgs).contains "--modversion" = false :=
    cons_contains_other (by decide) (by decide) h
  have hcf : ("--cflags" :: pkgs).contains "--cflags" = true :=
    cons_contains_self _ _
  have hfil : ("--cflags" :: pkgs).filter plainName = pkgs :=
    filter_plain_cons (by decide) h
  have hemp : pkgs.isEmpty = false := List.isEmpty_eq_false.mpr hne
  simp only [main, hver, hex, hmod, hcf, hfil, hemp, Bool.false_or,
    Bool.true_or, Bool.or_true, Bool.true_and, Bool.and_false,
    Bool.false_eq_true, if_false, if_true]
  rcases collect fs pkgs with e | r
  · cases e <;> rfl
  · rfl

/-- The dispatcher on a linker-flags query with well-formed names runs
the collector and prints the space-joined libs tokens, turning a
missing-package error into exit status 1 and letting any other
exception escape. -/
theorem main_libs_eq (fs : FS) (pkgs : List String)
    (h : ∀ p ∈ pkgs, plainName p = true) (hne : pkgs ≠ []) :
    main fs ("--libs" :: pkgs) =
      (match collect fs pkgs with
       | .error (.fileNotFoundError _) => .ok (1, "")
       | .error e => .error e
       | .ok r => .ok (0, pyJoinSpace r.2)) := by
  have hver : ("--libs" :: pkgs).contains "--version" = false :=
    cons_contains_other (by decide) (by decide) h
  have hex : ("--libs" :: pkgs).contains "--exists" = false :=
    cons_contains_other (by decide) (by decide) h
  have hmod : ("--libs" :: pkgs).contains "--modversion" = false :=
    cons_contains_other (by decide) (by decide) h
  have hcf : ("--libs" :: pkgs).contains "--cflags" = false :=
    cons_contains_other (by decide) (by decide) h
  have hlb : ("--libs" :: pkgs).contains "--libs" = true :=
    cons_contains_self _ _
  have hfil : ("--libs" :: pkgs).filter plainName = pkgs :=
    filter_plain_cons (by decide) h
  have hemp : pkgs.isEmpty = false := List.isEmpty_eq_false.mpr hne
  simp only [main, hver, hex, hmod, hcf, hlb, hfil, hemp, Bool.false_or,
    Bool.true_or, Bool.or_true, Bool.true_and, Bool.and_false,
    Bool.false_eq_true, if_false, if_true]
  rcases collect fs pkgs with e | r
  · cases e <;> rfl
  · rfl

theorem existsLoop_eq_all (index : List (String × PcPath)) (pkgs : List String) :
    existsLoop index pkgs =
      if pkgs.all (fun p => (dictGet? index p).isSome) then 0 else 1 := by
  induction pkgs with
  | nil => rfl
  | cons p rest ih =>
    rw [existsLoop, List.all_cons]
    by_cases hp : (dictGet? index p).isSome
    · simp [hp, ih]
    · simp [hp]

/-- C8: an existence query with at least one well-formed package name
writes nothing to stdout and exits 0 exactly when every requested name
is present in the package index, and exits 1 otherwise. -/
theorem C8_exists_and_semantics (fs : FS) (pkgs : List String)
    (hne : pkgs ≠ []) (h : ∀ p ∈ pkgs, plainName p = true) :
    runMain fs ("--exists" :: pkgs) =
      (if pkgs.all (fun p => (dictGet? (buildIndex fs) p).isSome) then 0 else 1,
        "") := by
  rw [runMain, main_exists_eq fs pkgs h hne, existsLoop_eq_all]

/-- Witness for C8: one package that is present gives exit 0, and one
absent package gives exit 1, in both cases with empty stdout. -/
theorem C8_exists_and_semantics_witness :
    runMain fsZlib ["--exists", "zlib"] = (0, "") ∧
      runMain fsZlib ["--exists", "nosuch"] = (1, "") :=
  ⟨(C8_exists_and_semantics fsZlib ["zlib"] (by decide)
      (by intro p hp; rw [List.mem_singleton] at hp; rw [hp]; decide)).trans
      (by decide),
   (C8_exists_and_semantics fsZlib ["nosuch"] (by decide)
      (by intro p hp; rw [List.mem_singleton] at hp; rw [hp]; decide)).trans
      (by decide)⟩

/-- C10: an argument list containing the version flag anywhere makes the
shim print the fixed version string and exit 0, before any other
dispatching, whatever other flags or names are present. -/
theorem C10_version_flag_first (fs : FS) (argv : List String)
    (h : argv.contains "--version" = true) :
    main fs argv = .ok (0, "0.0.0-luavsg") ∧
      runMain fs argv = (0, "0.0.0-luavsg") := by
  have hm : main fs argv = .ok (0, "0.0.0-luavsg") := by
    rw [main, if_pos h]
    rfl
  exact ⟨hm, by rw [runMain, hm]⟩

/-- Witness for C10: the version flag wins even in an invocation that
would otherwise fail because an action flag has zero package names. -/
theorem C10_version_flag_first_witness :
    runMain fsEmpty ["--exists", "--version"] = (0, "0.0.0-luavsg") :=
  (C10_version_flag_first fsEmpty ["--exists", "--version"] (by decide)).2

/-- C7: a version query considers only the first requested name: when
that name is in the index and its file is readable, the invocation
prints the raw, unexpanded Version field of the parsed file (defaulting
to 0 when the field is absent) and exits 0, whatever the remaining
names are; when the first name is absent from the index the invocation
exits 1. -/
theorem C7_modversion_first_name_only (fs : FS) (p : String)
    (rest : List String) (hp : plainName p = true)
    (h : ∀ q ∈ rest, plainName q = true) :
    (dictGet? (buildIndex fs) p = none →
      runMain fs ("--modversion" :: p :: rest) = (1, "")) ∧
    (∀ path lines, dictGet? (buildIndex fs) p = some path →
      fs.read path = .ok lines →
      runMain fs ("--modversion" :: p :: rest) =
        (0, dictGetD (parseLines lines).2 "Version" "0")) := by
  constructor
  · intro hnone
    rw [runMain, main_mod_eq fs p rest hp h, hnone]
  · intro path lines hpath hread
    rw [runMain, main_mod_eq fs p rest hp h, hpath]
    have hparse : parsePc fs path =
        .ok
          { name := dictGetD (parseLines lines).2 "Name" path.stem
            path := path
            vars := (parseLines lines).1
            fields := (parseLines lines).2 } := by
      rw [parsePc, hread]
      rfl
    simp only [hparse]

/-- Witness for C7: with the zlib file of the scenario (which has no
Version field) the version query prints the default 0 and exits 0,
ignoring a second requested name; on an empty filesystem the same query
exits 1. -/
theorem C7_modversion_first_name_only_witness :
    runMain fsZlib ["--modversion", "zlib", "other"] = (0, "0") ∧
      runMain fsEmpty ["--modversion", "zlib"] = (1, "") :=
  ⟨((C7_modversion_first_name_only fsZlib "zlib" ["other"] (by decide)
      (by intro q hq; rw [List.mem_singleton] at hq; rw [hq]; decide)).2
      zlibPath zlibLines rfl rfl).trans (by decide),
   (C7_modversion_first_name_only fsEmpty "zlib" [] (by decide)
      (by intro q hq; cases hq)).1 rfl⟩

/-- A package file that declares a Libs field and a Libs.private field:
only the former may reach the output. -/
def zpPath : PcPath := ⟨"zp", "/repo/lib"⟩

/-- A filesystem holding one file with both Libs and Libs.private. -/
def fsPriv : FS where
  candidateRoots := ["/repo/lib"]
  walk := fun r => if r = "/repo/lib" then ([zpPath], none) else ([], none)
  read := fun p =>
    if p = zpPath then .ok ["Libs: -lz", "Libs.private: -lm"]
    else .error (.fileNotFoundError p.stem)

/-- A filesystem whose walk discovers the zlib file but where reading
any file raises PermissionError. -/
def fsPerm : FS where
  candidateRoots := ["/repo/lib"]
  walk := fun r => if r = "/repo/lib" then ([zlibPath], none) else ([], none)
  read := fun _ => .error .permissionError

/-- A filesystem whose walk discovers the zlib file but where reading
any file raises FileNotFoundError, as when the file vanishes between
discovery and parse. -/
def fsGone : FS where
  candidateRoots := ["/repo/lib"]
  walk := fun r => if r = "/repo/lib" then ([zlibPath], none) else ([], none)
  read := fun _ => .error (.fileNotFoundError "zlib")

/-- A filesystem on which every read succeeds with an empty file. -/
def fsTotalRead : FS where
  candidateRoots := []
  walk := fun _ => ([], none)
  read := fun _ => .ok []

/-- Modelled from the spec: the tokens one named package contributes to
a flags query — take the named field (Cflags or Libs) of the parsed
package, expand it against the package variable mapping augmented with
the reserved variable pcfiledir bound to the directory containing the
file when not already defined, and split the expanded string on
whitespace.  A name whose file is absent or unreadable contributes
nothing (the theorems that mention this definition exclude those cases
by hypothesis). -/
def specTokensByName (fs : FS) (field : String) (p : String) : List String :=
  match dictGet? (buildIndex fs) p with
  | none => []
  | some path =>
    match parsePc fs path with
    | .error _ => []
    | .ok pc =>
      let ctx :=
        if (dictGet? pc.vars "pcfiledir").isSome then pc.vars
        else pc.vars ++ [("pcfiledir", path.parent)]
      pySplitWs (expand (dictGetD pc.fields field "") ctx)

/-- When every requested package is present in the index with a readable
file, the collector loop succeeds and appends, in request order, exactly
the per-package token lists of the expanded Cflags and Libs fields. -/
theorem collectGo_ok (fs : FS) (pkgs : List String)
    (h : ∀ p ∈ pkgs, ∃ path lines,
      dictGet? (buildIndex fs) p = some path ∧ fs.read path = .ok lines) :
    ∀ cf lb, collectGo fs (buildIndex fs) pkgs cf lb =
      .ok (cf ++ pkgs.flatMap (specTokensByName fs "Cflags"),
        lb ++ pkgs.flatMap (specTokensByName fs "Libs")) := by
  induction pkgs with
  | nil =>
    intro cf lb
    simp [collectGo]
  | cons p rest ih =>
    intro cf lb
    obtain ⟨path, lines, hpath, hread⟩ := h p (List.mem_cons.mpr (Or.inl rfl))
    have hparse : parsePc fs path =
        .ok
          { name := dictGetD (parseLines lines).2 "Name" path.stem
            path := path
            vars := (parseLines lines).1
            fields := (parseLines lines).2 } := by
      rw [parsePc, hread]
      rfl
    have hrest := ih fun q hq => h q (List.mem_cons.mpr (Or.inr hq))
    have hspecC : specTokensByName fs "Cflags" p =
        pySplitWs (expand (dictGetD (parseLines lines).2 "Cflags" "")
          (dictSetdefault (parseLines lines).1 "pcfiledir" path.parent)) := by
      simp only [specTokensByName, hpath, hparse]
      rfl
    have hspecL : specTokensByName fs "Libs" p =
        pySplitWs (expand (dictGetD (parseLines lines).2 "Libs" "")
          (dictSetdefault (parseLines lines).1 "pcfiledir" path.parent)) := by
      simp only [specTokensByName, hpath, hparse]
      rfl
    simp only [collectGo, hpath, hparse, hrest, List.flatMap_cons, hspecC,
      hspecL, List.append_assoc]

/-- C1: for well-formed requested names all present in the index with
readable files, the cflags (resp. libs) query exits 0 and prints the
space-joined concatenation, in request order, of each package's
whitespace-split expanded Cflags (resp. Libs) field, the expansion
context being the package's own variables augmented with pcfiledir bound
to the containing directory when not already defined.  In particular
the worked zlib scenario produces -I/usr/include and -L/usr/lib -lz,
and a Libs.private field never contributes a token to the libs
output. -/
theorem C1_flags_query_assembly :
    (∀ (fs : FS) (pkgs : List String), pkgs ≠ [] →
      (∀ p ∈ pkgs, plainName p = true) →
      (∀ p ∈ pkgs, ∃ path lines,
        dictGet? (buildIndex fs) p = some path ∧ fs.read path = .ok lines) →
      runMain fs ("--cflags" :: pkgs) =
        (0, pyJoinSpace (pkgs.flatMap (specTokensByName fs "Cflags"))) ∧
      runMain fs ("--libs" :: pkgs) =
        (0, pyJoinSpace (pkgs.flatMap (specTokensByName fs "Libs")))) ∧
    runMain fsZlib ["--cflags", "zlib"] = (0, "-I/usr/include") ∧
    runMain fsZlib ["--libs", "zlib"] = (0, "-L/usr/lib -lz") ∧
    runMain fsPriv ["--libs", "zp"] = (0, "-lz") := by
  refine ⟨fun fs pkgs hne hwf hok => ?_, by decide, by decide, by decide⟩
  have hc := collectGo_ok fs pkgs hok [] []
  have hcol : collect fs pkgs =
      .ok (pkgs.flatMap (specTokensByName fs "Cflags"),
        pkgs.flatMap (specTokensByName fs "Libs")) := by
    rw [collect, hc]
    simp
  constructor
  · rw [runMain, main_cflags_eq fs pkgs hwf hne, hcol]
  · rw [runMain, main_libs_eq fs pkgs hwf hne, hcol]

/-- Witness for C1: the general assembly statement instantiated at the
zlib scenario filesystem with the single request zlib. -/
theorem C1_flags_query_assembly_witness :
    runMain fsZlib ["--cflags", "zlib"] =
      (0, pyJoinSpace (["zlib"].flatMap (specTokensByName fsZlib "Cflags"))) ∧
    runMain fsZlib ["--libs", "zlib"] =
      (0, pyJoinSpace (["zlib"].flatMap (specTokensByName fsZlib "Libs"))) :=
  C1_flags_query_assembly.1 fsZlib ["zlib"] (by decide)
    (by
      intro p hp
      rw [List.mem_singleton] at hp
      rw [hp]
      decide)
    (by
      intro p hp
      rw [List.mem_singleton] at hp
      subst hp
      exact ⟨zlibPath, zlibLines, rfl, rfl⟩)

/-- When some requested package is absent from the index, the collector
loop raises: either the missing package is reached and FileNotFoundError
is raised for it, or an earlier package raised first. -/
theorem collectGo_error_of_missing (fs : FS) (index : List (String × PcPath)) :
    ∀ (pkgs : List String) (cf lb : List String),
      (∃ p ∈ pkgs, dictGet? index p = none) →
      ∃ e, collectGo fs index pkgs cf lb = .error e := by
  intro pkgs
  induction pkgs with
  | nil =>
    intro cf lb hmiss
    obtain ⟨p, hp, _⟩ := hmiss
    cases hp
  | cons p rest ih =>
    intro cf lb hmiss
    rcases hsome : dictGet? index p with _ | path
    · exact ⟨.fileNotFoundError p, by simp [collectGo, hsome]⟩
    · obtain ⟨q, hq, hqnone⟩ := hmiss
      have hqrest : q ∈ rest := by
        rcases List.mem_cons.mp hq with rfl | hmem
        · rw [hsome] at hqnone
          cases hqnone
        · exact hmem
      rcases hparse : parsePc fs path with e | pc
      · exact ⟨e, by simp [collectGo, hsome, hparse]⟩
      · obtain ⟨e, he⟩ := ih
          (cf ++ pySplitWs (expand (dictGetD pc.fields "Cflags" "")
            (dictSetdefault pc.vars "pcfiledir" path.parent)))
          (lb ++ pySplitWs (expand (dictGetD pc.fields "Libs" "")
            (dictSetdefault pc.vars "pcfiledir" path.parent)))
          ⟨q, hqrest, hqnone⟩

        exact ⟨e, by simp only [collectGo, hsome, hparse]; exact he⟩

/-- C4: a cflags or libs query with well-formed names in which at least
one requested name is absent from the index exits with status 1 and
writes nothing to stdout, producing no partial output for the packages
that were found. -/
theorem C4_missing_package_no_partial_output (fs : FS) (pkgs : List String)
    (hwf : ∀ p ∈ pkgs, plainName p = true)
    (hmiss : ∃ p ∈ pkgs, dictGet? (buildIndex fs) p = none) :
    runMain fs ("--cflags" :: pkgs) = (1, "") ∧
      runMain fs ("--libs" :: pkgs) = (1, "") := by
  have hne : pkgs ≠ [] := by
    obtain ⟨p, hp, _⟩ := hmiss
    intro hcon
    rw [hcon] at hp
    cases hp
  obtain ⟨e, he⟩ := collectGo_error_of_missing fs (buildIndex fs) pkgs [] [] hmiss
  have hcol : collect fs pkgs = .error e := by
    rw [collect]
    exact he
  constructor
  · rw [runMain, main_cflags_eq fs pkgs hwf hne, hcol]
    cases e <;> rfl
  · rw [runMain, main_libs_eq fs pkgs hwf hne, hcol]
    cases e <;> rfl

/-- Witness for C4: one present and one absent package still yield exit
status 1 with empty stdout for both query kinds. -/
theorem C4_missing_package_no_partial_output_witness :
    runMain fsZlib ["--cflags", "zlib", "nosuch"] = (1, "") ∧
      runMain fsZlib ["--libs", "zlib", "nosuch"] = (1, "") :=
  C4_missing_package_no_partial_output fsZlib ["zlib", "nosuch"]
    (by
      intro p hp
      rcases List.mem_cons.mp hp with rfl | hp
      · decide
      · rw [List.mem_singleton] at hp
        rw [hp]
        decide)
    ⟨"nosuch", by simp, rfl⟩

/-- Counterexample to C6: on a filesystem whose walk discovers the
requested file but where reading it raises PermissionError, the
permission error is not caught anywhere and propagates out of the
dispatcher as an uncaught exception — it neither degrades to a skipped
file nor becomes the missing-package failure. -/
theorem C6_counterexample_permission_error_escapes :
    main fsPerm ["--cflags", "zlib"] = .error .permissionError := rfl

/-- When every read succeeds, the collector loop either succeeds or
raises FileNotFoundError for a missing package; no other exception
arises. -/
theorem collectGo_reads_ok (fs : FS) (index : List (String × PcPath))
    (hr : ∀ p : PcPath, ∃ lines, fs.read p = .ok lines) :
    ∀ (pkgs : List String) (cf lb : List String),
      (∃ r, collectGo fs index pkgs cf lb = .ok r) ∨
      (∃ a, collectGo fs index pkgs cf lb = .error (.fileNotFoundError a)) := by
  intro pkgs
  induction pkgs with
  | nil =>
    intro cf lb
    exact Or.inl ⟨(cf, lb), rfl⟩
  | cons p rest ih =>
    intro cf lb
    rcases hsome : dictGet? index p with _ | path
    · exact Or.inr ⟨p, by simp [collectGo, hsome]⟩
    · obtain ⟨lines, hread⟩ := hr path
      have hparse : parsePc fs path =
          .ok
            { name := dictGetD (parseLines lines).2 "Name" path.stem
              path := path
              vars := (parseLines lines).1
              fields := (parseLines lines).2 } := by
        rw [parsePc, hread]
        rfl
      rcases ih
          (cf ++ pySplitWs (expand (dictGetD (parseLines lines).2 "Cflags" "")
            (dictSetdefault (parseLines lines).1 "pcfiledir" path.parent)))
          (lb ++ pySplitWs (expand (dictGetD (parseLines lines).2 "Libs" "")
            (dictSetdefault (parseLines lines).1 "pcfiledir" path.parent)))
        with ⟨r, hok⟩ | ⟨a, herr⟩
      · exact Or.inl ⟨r, by simp only [collectGo, hsome, hparse]; exact hok⟩
      · exact Or.inr ⟨a, by simp only [collectGo, hsome, hparse]; exact herr⟩

/-- C6 amended: failures while walking the search roots are swallowed
(the walk exception component never influences the result), and whenever
every file read succeeds, no exception escapes the dispatcher on any
argument list — absent packages, malformed invocations and truncated
walks all degrade to exit statuses.  A read failure on a discovered
file, however, propagates, except that a FileNotFoundError raised during
a flags query is caught and converted to exit status 1. -/
theorem C6_amended_read_failure_propagation :
    (∀ (fs : FS) (argv : List String),
      (∀ p : PcPath, ∃ lines, fs.read p = .ok lines) →
      ∃ r, main fs argv = .ok r) ∧
    main fsGone ["--cflags", "zlib"] = .ok (1, "") := by
  refine ⟨fun fs argv hr => ?_, rfl⟩
  by_cases hv : argv.contains "--version" = true
  · exact ⟨(0, VERSION), by rw [main, if_pos hv]⟩
  have hv' : argv.contains "--version" = false := by
    simpa using hv
  simp only [main, hv', Bool.false_eq_true, if_false]
  by_cases hg : ((argv.contains "--exists" || argv.contains "--modversion" ||
      argv.contains "--cflags" || argv.contains "--libs") &&
      (argv.filter plainName).isEmpty) = true
  · rw [if_pos hg]
    exact ⟨(1, ""), rfl⟩
  · rw [if_neg hg]
    by_cases he : argv.contains "--exists" = true
    · rw [if_pos he]
      exact ⟨_, rfl⟩
    · rw [if_neg he]
      by_cases hm : argv.contains "--modversion" = true
      · rw [if_pos hm]
        rcases hfil : argv.filter plainName with _ | ⟨p, rest⟩
        · exfalso
          apply hg
          rw [hfil]
          simp only [hm, Bool.true_or, Bool.or_true, List.isEmpty_nil,
            Bool.and_true]
        · rcases hpath : dictGet? (buildIndex fs) p with _ | path
          · exact ⟨(1, ""), by simp only [hfil, hpath]⟩
          · obtain ⟨lines, hread⟩ := hr path
            have hparse : parsePc fs path =
                .ok
                  { name := dictGetD (parseLines lines).2 "Name" path.stem
                    path := path
                    vars := (parseLines lines).1
                    fields := (parseLines lines).2 } := by
              rw [parsePc, hread]
              rfl
            exact ⟨(0, dictGetD (parseLines lines).2 "Version" "0"),
              by simp only [hfil, hpath, hparse]⟩
      · rw [if_neg hm]
        by_cases hcl : (argv.contains "--cflags" || argv.contains "--libs") = true
        · rw [if_pos hcl]
          rcases collectGo_reads_ok fs (buildIndex fs) hr
              (argv.filter plainName) [] [] with ⟨r, hok⟩ | ⟨a, herr⟩
          · rcases r with ⟨cf, lb⟩
            by_cases hwc : argv.contains "--cflags" = true
            · exact ⟨(0, pyJoinSpace cf), by
                simp only [collect, hok, hwc, if_true]⟩
            · have hwc' : argv.contains "--cflags" = false := by
                simpa using hwc
              exact ⟨(0, pyJoinSpace lb), by
                simp only [collect, hok, hwc', Bool.false_eq_true, if_false]⟩
          · exact ⟨(1, ""), by simp only [collect, herr]⟩
        · rw [if_neg hcl]
          exact ⟨(1, ""), rfl⟩

/-- Witness for C6 amended: on a filesystem where every read succeeds,
a flags query for an absent package returns normally. -/
theorem C6_amended_read_failure_propagation_witness :
    ∃ r, main fsTotalRead ["--cflags", "zlib"] = .ok r :=
  C6_amended_read_failure_propagation.1 fsTotalRead ["--cflags", "zlib"]
    fun _ => ⟨[], rfl⟩

/-- Modelled from the claim wording: a line contains a colon before any
equals sign when it contains a colon and the first colon occurs before
the first equals sign (hence before every equals sign). -/
def specColonBeforeEq (l : List Char) : Bool :=
  match l.findIdx? fun x => x = ':' with
  | none => false
  | some ci =>
    match l.findIdx? fun x => x = '=' with
    | none => true
    | some ei => decide (ci < ei)

/-- The one-shot split of the parser equals taking up to the first
occurrence of the separator and dropping through it. -/
theorem pySplit1_eq (c : Char) (l : List Char) :
    pySplit1 c l =
      (l.takeWhile (fun x => x != c), (l.dropWhile fun x => x != c).drop 1) := by
  induction l with
  | nil => rfl
  | cons a rest ih =>
    by_cases h : a = c
    · subst h
      simp [pySplit1, List.takeWhile_cons, List.dropWhile_cons]
    · have hb : (a != c) = true := by
        simpa using h
      simp [pySplit1, List.takeWhile_cons, List.dropWhile_cons, hb, h, ih]

/-- Counterexample to C5: in the line a=b:c an equals sign occurs before
the colon, so the claimed rule classifies it as a variable assignment;
the parser nevertheless treats it as a field line, storing the key a=b
with value c among the fields and leaving the variables empty. -/
theorem C5_counterexample_equals_before_colon :
    specColonBeforeEq (pstripList "a=b:c".data) = false ∧
      parseStep ([], []) "a=b:c" = ([], [("a=b", "c")]) := by
  decide

/-- C5 amended: a processed (non-blank, non-comment) line is classified
as a field line exactly when it contains a colon and the stripped
segment before the first colon does not end in an equals sign;
otherwise, when it contains an equals sign, it is a variable-assignment
line; lines with neither are skipped.  Keys and values are the stripped
segments before and after the first separator. -/
theorem C5_amended_field_rule (vs fl : List (String × String)) (raw : String)
    (h1 : pstripList raw.data ≠ [])
    (h2 : ¬(pstripList raw.data).head? = some '#') :
    parseStep (vs, fl) raw =
      (if (pstripList raw.data).contains ':' &&
          !((pstripList ((pstripList raw.data).takeWhile
              fun x => x != ':')).getLast? = some '=') then
        (vs, dictSet fl
          ⟨pstripList ((pstripList raw.data).takeWhile fun x => x != ':')⟩
          ⟨pstripList (((pstripList raw.data).dropWhile
              fun x => x != ':').drop 1)⟩)
       else if (pstripList raw.data).contains '=' then
        (dictSet vs
          ⟨pstripList ((pstripList raw.data).takeWhile fun x => x != '=')⟩
          ⟨pstripList (((pstripList raw.data).dropWhile
              fun x => x != '=').drop 1)⟩, fl)
       else (vs, fl)) := by
  have he : (pstripList raw.data).isEmpty = false := by
    simpa [List.isEmpty_eq_false] using h1
  have hh : decide ((pstripList raw.data).head? = some '#') = false :=
    decide_eq_false h2
  simp only [parseStep, pySplit1_eq, he, hh, Bool.or_self, Bool.false_or,
    Bool.false_eq_true, if_false]

/-- Witness for C5 amended: a concrete field line is parsed into the
fields mapping with stripped key and value. -/
theorem C5_amended_field_rule_witness :
    parseStep ([], []) "Cflags: -I/x" = ([], [("Cflags", "-I/x")]) :=
  (C5_amended_field_rule [] [] "Cflags: -I/x" (by decide) (by decide)).trans
    (by decide)

/-- Witness for C3: the pass-count analysis instantiated at the Cflags
value of the worked scenario. -/
theorem C3_expansion_bounded_total_witness :
    ∃ n, n ≤ 10 ∧
      expand "-I$\x7bprefix\x7d/include" [("prefix", "/usr")] =
        (varSub [("prefix", "/usr")])^[n] "-I$\x7bprefix\x7d/include" ∧
      (∀ m, m + 1 < n →
        (varSub [("prefix", "/usr")])^[m] "-I$\x7bprefix\x7d/include" ≠
          (varSub [("prefix", "/usr")])^[m + 1] "-I$\x7bprefix\x7d/include") ∧
      ((varSub [("prefix", "/usr")])^[n] "-I$\x7bprefix\x7d/include" =
          (varSub [("prefix", "/usr")])^[n + 1] "-I$\x7bprefix\x7d/include" ∨
        n = 10) :=
  C3_expansion_bounded_total.1 [("prefix", "/usr")] "-I$\x7bprefix\x7d/include"

end LuavsgPkgConfig
